import Mathlib

/-!
Verification of the 3D FCOS/CondInst target-assignment and proposal pipeline
(`adet/modeling/fcos/fcos_outputs3d.py`, `adet/modeling/condinst/uinst.py`,
`adet/utils/dataset_3d.py`).

The Python tensor code is embedded shallowly: per-location/per-box scalar
computations over `ℚ` (the float arithmetic is modelled exactly, no rounding),
score computations involving `sigmoid`/`sqrt` over `ℝ`, and fallible paths
(`raise`, failing `assert`, Python `TypeError`) as `Except Unit`.
-/

/-- A 3D box `(x1, y1, z1, x2, y2, z2)` in voxel coordinates; one row of the
`Boxes3D` tensor (`dataset_3d.py:34-67`). -/
structure Box3 where
  x1 : ℚ
  y1 : ℚ
  z1 : ℚ
  x2 : ℚ
  y2 : ℚ
  z2 : ℚ
deriving DecidableEq, Repr

/-- `Boxes3D.area` (`dataset_3d.py:56-67`):
`(box[:,3]-box[:,0]) * (box[:,4]-box[:,1]) * (box[:,5]-box[:,2])`. -/
def Box3.area (bx : Box3) : ℚ :=
  (bx.x2 - bx.x1) * (bx.y2 - bx.y1) * (bx.z2 - bx.z1)

/-- One dense prediction site `(x, y, z)`; a row of `locations`
(`fcos_outputs3d.py:242`). -/
structure Loc3 where
  x : ℚ
  y : ℚ
  z : ℚ
deriving DecidableEq, Repr

/-- A 6-d regression vector `(l, t, n, r, b, f)` in the stacking order of
`fcos_outputs3d.py:267`. -/
structure Reg6 where
  l : ℚ
  t : ℚ
  n : ℚ
  r : ℚ
  b : ℚ
  f : ℚ
deriving DecidableEq, Repr

/-- The zero regression vector (`locations.new_zeros((..., 6))`,
`fcos_outputs3d.py:255`). -/
def Reg6.zero : Reg6 := ⟨0, 0, 0, 0, 0, 0⟩

/-- `min` over the 6 entries, as in `reg_targets_per_im.min(dim=2)[0]`
(`fcos_outputs3d.py:285`). -/
def Reg6.min6 (g : Reg6) : ℚ :=
  min g.l (min g.t (min g.n (min g.r (min g.b g.f))))

/-- `max` over the 6 entries, as in `reg_targets_per_im.max(dim=2)[0]`
(`fcos_outputs3d.py:287`). -/
def Reg6.max6 (g : Reg6) : ℚ :=
  max g.l (max g.t (max g.n (max g.r (max g.b g.f))))

/-- The six signed distances from a location to the faces of a box
(`fcos_outputs3d.py:261-267`):
`l = x - x1, t = y - y1, n = z - z1, r = x2 - x, b = y2 - y, f = z2 - z`. -/
def regTarget (p : Loc3) (bx : Box3) : Reg6 :=
  ⟨p.x - bx.x1, p.y - bx.y1, p.z - bx.z1, bx.x2 - p.x, bx.y2 - p.y, bx.z2 - p.z⟩

/-- Decoding of a detection box from a location and a (stride-denormalized)
regression (`fcos_outputs3d.py:632-642`):
`(x - r0, y - r1, z - r2, x + r3, y + r4, z + r5)`. -/
def decodeDetection (p : Loc3) (g : Reg6) : Box3 :=
  ⟨p.x - g.l, p.y - g.t, p.z - g.n, p.x + g.r, p.y + g.b, p.z + g.f⟩

/-- The `INF` sentinel (`fcos_outputs3d.py:19`). -/
def INF : ℚ := 100000000

/-- `is_in_boxes` without center sampling (`fcos_outputs3d.py:285`):
all six face distances strictly positive. -/
def insideBox (p : Loc3) (bx : Box3) : Bool :=
  decide (0 < (regTarget p bx).min6)

/-- `is_cared_in_the_level` (`fcos_outputs3d.py:287-291`): the largest face
distance lies in the level size-of-interest range `[lo, hi]`. -/
def isCaredInLevel (p : Loc3) (lo hi : ℚ) (bx : Box3) : Bool :=
  decide (lo ≤ (regTarget p bx).max6) && decide ((regTarget p bx).max6 ≤ hi)

/-- A box qualifies for a location when it is a candidate (`is_in_boxes`) and
size-eligible (`is_cared_in_the_level`); the conjunction of the two masks
applied at `fcos_outputs3d.py:293-295`. -/
def qualifies (p : Loc3) (rg : ℚ × ℚ) (bx : Box3) : Bool :=
  insideBox p bx && isCaredInLevel p rg.1 rg.2 bx

/-- A full-resolution 3D bitmask of spatial shape `(s, h, w)`; voxel values as
rationals (the tensors are float), addressed as `val i j k` with `i` the slice
(`s`) index, `j` the row (`h`) index, `k` the column (`w`) index. -/
structure Mask3 where
  s : ℕ
  h : ℕ
  w : ℕ
  val : ℕ → ℕ → ℕ → ℚ

/-- Sum of `f` over the voxel grid of shape `(s, h, w)`. -/
def maskSum (s h w : ℕ) (f : ℕ → ℕ → ℕ → ℚ) : ℚ :=
  ∑ i ∈ Finset.range s, ∑ j ∈ Finset.range h, ∑ k ∈ Finset.range w, f i j k

/-- Mass center of a bitmask (`fcos_outputs3d.py:171-183`): the zeroth moment
is clamped at `1e-6`; `center_x = m11/m00` weights the slice (`s`) index,
`center_y = m01/m00` the row (`h`) index, `center_z = m10/m00` the column
(`w`) index, matching the comment "(x,y,z) corresponds to (s,h,w)". -/
def massCenter (m : Mask3) : ℚ × ℚ × ℚ :=
  let m00 := max (1 / 1000000) (maskSum m.s m.h m.w m.val)
  let m10 := maskSum m.s m.h m.w fun i j k => m.val i j k * k
  let m01 := maskSum m.s m.h m.w fun i j k => m.val i j k * j
  let m11 := maskSum m.s m.h m.w fun i j k => m.val i j k * i
  (m11 / m00, m01 / m00, m10 / m00)

/-- Inside test against the radius-window around a mass center, clipped to the
box (`fcos_outputs3d.py:199-234`): the window is `center ± stride*radius`,
clipped by `torch.where`/`torch.max`/`torch.min` to the box extent, and the
location must have all six distances to the clipped window strictly positive.
`strideR` is `strides[level] * radius` for the location's pyramid level. -/
def sampleInside (bx : Box3) (c : ℚ × ℚ × ℚ) (strideR : ℚ) (p : Loc3) : Bool :=
  let g0 := max bx.x1 (c.1 - strideR)
  let g1 := max bx.y1 (c.2.1 - strideR)
  let g2 := max bx.z1 (c.2.2 - strideR)
  let g3 := min bx.x2 (c.1 + strideR)
  let g4 := min bx.y2 (c.2.1 + strideR)
  let g5 := min bx.z2 (c.2.2 + strideR)
  decide (0 < (regTarget p ⟨g0, g1, g2, g3, g4, g5⟩).min6)

/-- The per-location `strides[level] ` value: the flat location list is split
into levels by `num_loc_list` and each level uses its own stride
(the `beg/end` loop of `fcos_outputs3d.py:199-225`). -/
def strideOfLoc (numLocList : List ℕ) (strides : List ℚ) : List ℚ :=
  (numLocList.zip strides).flatMap fun q => List.replicate q.1 q.2

/-- `get_sample_region` (`fcos_outputs3d.py:165-234`).  With no bitmasks the
2D geometric box-center fallback is dead code ending in a bare
`raise Exception()` (lines 184-187), modelled as `Except.error ()`.  With
bitmasks, mass centers are computed per ground-truth instance, and each
(location, gt) pair is tested against the radius window around the center.
The early no-gt return (line 197-198) yields a zero tensor of shape `(K,)`
whose boolean row-masking downstream marks every (location, gt) pair as
outside; it is modelled as the all-`false` `K × num_gts` matrix, which has
exactly that downstream effect. -/
def get_sample_region (boxes : List Box3) (strides : List ℚ)
    (numLocList : List ℕ) (locs : List Loc3) (bitmasks : Option (List Mask3))
    (radius : ℚ) : Except Unit (List (List Bool)) :=
  match bitmasks with
  | none => Except.error ()
  | some bms =>
    let centers := bms.map massCenter
    if boxes.length = 0 ∨ locs.length = 0 ∨
        (centers.headD (0, 0, 0)).1 * locs.length = 0 then
      Except.ok (locs.map fun _ => boxes.map fun _ => false)
    else
      Except.ok ((locs.zip (strideOfLoc numLocList strides)).map fun q =>
        (boxes.zip centers).map fun bc =>
          sampleInside bc.1 bc.2 (q.2 * radius) q.1)

/-- One per-location target bundle (`labels`, `reg_targets`, `target_inds`
rows produced by `compute_targets_for_locations`). -/
structure TargetBundle where
  label : ℕ
  reg : Reg6
  ind : ℤ
deriving DecidableEq, Repr

/-- Per-image ground truth: `gt_boxes`, `gt_classes`, and the optional
`gt_bitmasks_full` field (`fcos_outputs3d.py:247-248, 269-273`). -/
structure GtImage where
  boxes : List Box3
  classes : List ℕ
  bitmasksFull : Option (List Mask3)

/-- Configuration slice used by target assignment. -/
structure Cfg where
  numClasses : ℕ
  centerSample : Bool
  radius : ℚ
  strides : List ℚ

/-- First-minimum of a list: `torch.min(dim=1)` returns the minimum and the
index of the first value attaining it. -/
def argminFirst : List ℚ → Option (ℕ × ℚ)
  | [] => none
  | a :: as =>
    match argminFirst as with
    | none => some (0, a)
    | some (i, m) => if m < a then some (i + 1, m) else some (0, a)

/-- The per-location selection of `compute_targets_for_locations`
(`fcos_outputs3d.py:293-310`): the area of each box is masked to `INF` where
the candidate mask (`row`) or the size-eligibility test fails; the first
minimum is taken; the label is replaced by the background sentinel
`num_classes` when that minimum equals `INF`; the regression target and
(offset) instance index of the argmin box are stored unconditionally. -/
def bundleForLocation (cfg : Cfg) (numTargets : ℕ) (im : GtImage) (p : Loc3)
    (rg : ℚ × ℚ) (row : List Bool) : TargetBundle :=
  let masked := (im.boxes.zip row).map fun bi =>
    if bi.2 && isCaredInLevel p rg.1 rg.2 bi.1 then bi.1.area else INF
  match argminFirst masked with
  | none => ⟨cfg.numClasses, Reg6.zero, -1⟩
  | some im' =>
    ⟨if im'.2 = INF then cfg.numClasses else im.classes.getD im'.1 0,
     regTarget p (im.boxes.getD im'.1 ⟨0, 0, 0, 0, 0, 0⟩),
     (im'.1 : ℤ) + numTargets⟩

/-- The per-image body of the loop in `compute_targets_for_locations`
(`fcos_outputs3d.py:245-314`): an image with no ground truth yields the
all-background bundle (label `num_classes`, zero regression, index `-1`,
lines 250-257); otherwise the candidate mask comes from `get_sample_region`
when center sampling is on (propagating its exception) and from the
all-distances-positive test otherwise. -/
def targetsForImage (cfg : Cfg) (locs : List Loc3) (ranges : List (ℚ × ℚ))
    (numLocList : List ℕ) (numTargets : ℕ) (im : GtImage) :
    Except Unit (List TargetBundle) :=
  if im.boxes.length = 0 then
    Except.ok (locs.map fun _ => ⟨cfg.numClasses, Reg6.zero, -1⟩)
  else do
    let inB ←
      if cfg.centerSample then
        get_sample_region im.boxes cfg.strides numLocList locs
          im.bitmasksFull cfg.radius
      else
        Except.ok (locs.map fun p => im.boxes.map fun bx => insideBox p bx)
    Except.ok (((locs.zip ranges).zip inB).map fun q =>
      bundleForLocation cfg numTargets im q.1.1 q.1.2 q.2)

/-- The image loop of `compute_targets_for_locations` with the running
`num_targets` offset (`fcos_outputs3d.py:244, 306-307`). -/
def computeGo (cfg : Cfg) (locs : List Loc3) (ranges : List (ℚ × ℚ))
    (numLocList : List ℕ) : ℕ → List GtImage →
    Except Unit (List (List TargetBundle))
  | _, [] => Except.ok []
  | nt, im :: ims => do
    let t ← targetsForImage cfg locs ranges numLocList nt im
    let rest ← computeGo cfg locs ranges numLocList (nt + im.boxes.length) ims
    Except.ok (t :: rest)

/-- `compute_targets_for_locations` (`fcos_outputs3d.py:236-320`), returning
the per-image lists of per-location target bundles. -/
def compute_targets_for_locations (cfg : Cfg) (locs : List Loc3)
    (ranges : List (ℚ × ℚ)) (numLocList : List ℕ) (images : List GtImage) :
    Except Unit (List (List TargetBundle)) :=
  computeGo cfg locs ranges numLocList 0 images

/-- The masked area vector of `fcos_outputs3d.py:293-295` specialised to the
no-center-sampling candidate mask: each box contributes its area when it
qualifies for the location and `INF` otherwise. -/
def maskedAreas (p : Loc3) (rg : ℚ × ℚ) (boxes : List Box3) : List ℚ :=
  boxes.map fun bx => if qualifies p rg bx then bx.area else INF

/-- The running `num_targets` offset before image `i`
(`fcos_outputs3d.py:306-307`). -/
def ntBefore (images : List GtImage) (i : ℕ) : ℕ :=
  ((images.take i).map fun im => im.boxes.length).sum

/-- The pure value `targetsForImage` returns when center sampling is off. -/
def targetsForImagePure (cfg : Cfg) (locs : List Loc3) (ranges : List (ℚ × ℚ))
    (nt : ℕ) (im : GtImage) : List TargetBundle :=
  if im.boxes.length = 0 then
    locs.map fun _ => ⟨cfg.numClasses, Reg6.zero, -1⟩
  else
    ((locs.zip ranges).zip (locs.map fun p => im.boxes.map fun bx => insideBox p bx)).map
      fun q => bundleForLocation cfg nt im q.1.1 q.1.2 q.2

/-- The pure value `computeGo` returns when center sampling is off. -/
def pureGo (cfg : Cfg) (locs : List Loc3) (ranges : List (ℚ × ℚ)) :
    ℕ → List GtImage → List (List TargetBundle)
  | _, [] => []
  | nt, im :: ims =>
    targetsForImagePure cfg locs ranges nt im ::
      pureGo cfg locs ranges (nt + im.boxes.length) ims

theorem argminFirst_cons (a : ℚ) (as : List ℚ) :
    argminFirst (a :: as) =
      match argminFirst as with
      | none => some (0, a)
      | some q => if q.2 < a then some (q.1 + 1, q.2) else some (0, a) := by
  cases h : argminFirst as with
  | none => simp [argminFirst, h]
  | some q =>
    cases q
    simp [argminFirst, h]

theorem argminFirst_spec (l : List ℚ) (hne : l ≠ []) :
    ∃ i m, argminFirst l = some (i, m) ∧ ∃ hi : i < l.length,
      l[i] = m ∧ (∀ j (hj : j < l.length), m ≤ l[j]) ∧
      ∀ j (hj : j < l.length), l[j] = m → i ≤ j := by
  induction l with
  | nil => exact absurd rfl hne
  | cons a as ih =>
    rcases as with _ | ⟨b, bs⟩
    · refine ⟨0, a, rfl, Nat.one_pos, rfl, ?_, ?_⟩
      · intro j hj
        have hj0 : j = 0 := by
          simp only [List.length_singleton] at hj
          omega
        subst hj0
        exact le_refl a
      · intro j _ _
        exact Nat.zero_le j
    · obtain ⟨i, m, heq, hi, hget, hmin, hfirst⟩ := ih (by simp)
      by_cases hm : m < a
      · refine ⟨i + 1, m, ?_, Nat.succ_lt_succ hi, ?_, ?_, ?_⟩
        · rw [argminFirst_cons, heq]
          dsimp only
          rw [if_pos hm]
        · simpa using hget
        · intro j hj
          cases j with
          | zero => exact le_of_lt hm
          | succ j => simpa using hmin j (by simpa using hj)
        · intro j hj hjm
          cases j with
          | zero =>
            simp only [List.getElem_cons_zero] at hjm
            exact absurd hjm.symm (ne_of_lt hm)
          | succ j =>
            simp only [List.getElem_cons_succ] at hjm
            exact Nat.succ_le_succ (hfirst j (by simpa using hj) hjm)
      · refine ⟨0, a, ?_, Nat.succ_pos _, rfl, ?_, ?_⟩
        · rw [argminFirst_cons, heq]
          dsimp only
          rw [if_neg hm]
        · intro j hj
          cases j with
          | zero => exact le_refl a
          | succ j =>
            have : a ≤ m := not_lt.mp hm
            exact this.trans (by simpa using hmin j (by simpa using hj))
        · intro j _ _
          exact Nat.zero_le j

theorem masked_eq (p : Loc3) (rg : ℚ × ℚ) : ∀ boxes : List Box3,
    ((boxes.zip (boxes.map fun bx => insideBox p bx)).map fun bi =>
      if bi.2 && isCaredInLevel p rg.1 rg.2 bi.1 then bi.1.area else INF) =
    maskedAreas p rg boxes
  | [] => rfl
  | bx :: bs => by
    have ih := masked_eq p rg bs
    simp only [maskedAreas, qualifies] at ih ⊢
    simp only [List.map_cons, List.zip_cons_cons]
    rw [ih]

theorem maskedAreas_length (p : Loc3) (rg : ℚ × ℚ) (boxes : List Box3) :
    (maskedAreas p rg boxes).length = boxes.length :=
  List.length_map _ _

theorem targetsForImage_noCS (cfg : Cfg) (locs : List Loc3)
    (ranges : List (ℚ × ℚ)) (nls : List ℕ) (nt : ℕ) (im : GtImage)
    (hcs : cfg.centerSample = false) :
    targetsForImage cfg locs ranges nls nt im =
      Except.ok (targetsForImagePure cfg locs ranges nt im) := by
  unfold targetsForImage targetsForImagePure
  by_cases hb : im.boxes.length = 0
  · rw [if_pos hb, if_pos hb]
  · rw [if_neg hb, if_neg hb, hcs]
    rfl

theorem computeGo_noCS (cfg : Cfg) (locs : List Loc3) (ranges : List (ℚ × ℚ))
    (nls : List ℕ) (hcs : cfg.centerSample = false) :
    ∀ (images : List GtImage) (nt : ℕ),
      computeGo cfg locs ranges nls nt images =
        Except.ok (pureGo cfg locs ranges nt images)
  | [], _ => rfl
  | im :: ims, nt => by
    unfold computeGo pureGo
    rw [targetsForImage_noCS cfg locs ranges nls nt im hcs,
      computeGo_noCS cfg locs ranges nls hcs ims (nt + im.boxes.length)]
    rfl

theorem pureGo_getD (cfg : Cfg) (locs : List Loc3) (ranges : List (ℚ × ℚ)) :
    ∀ (images : List GtImage) (nt i : ℕ), i < images.length →
      (pureGo cfg locs ranges nt images).getD i [] =
        targetsForImagePure cfg locs ranges (nt + ntBefore images i)
          (images.getD i ⟨[], [], none⟩)
  | [], _, i, hi => absurd hi (by simp)
  | im :: ims, nt, 0, _ => by
    simp [pureGo, ntBefore]
  | im :: ims, nt, i + 1, hi => by
    simp only [pureGo, List.getD_cons_succ]
    rw [pureGo_getD cfg locs ranges ims (nt + im.boxes.length) i (by simpa using hi)]
    have hnb : ntBefore (im :: ims) (i + 1) = im.boxes.length + ntBefore ims i := by
      simp [ntBefore, List.take_succ_cons]
    rw [hnb, ← Nat.add_assoc]

theorem targetsForImagePure_getD (cfg : Cfg) (locs : List Loc3)
    (ranges : List (ℚ × ℚ)) (nt : ℕ) (im : GtImage)
    (hlr : ranges.length = locs.length) (j : ℕ) (hj : j < locs.length)
    (hne : im.boxes.length ≠ 0) :
    (targetsForImagePure cfg locs ranges nt im).getD j ⟨0, Reg6.zero, 0⟩ =
      bundleForLocation cfg nt im (locs.getD j ⟨0, 0, 0⟩)
        (ranges.getD j (0, 0))
        (im.boxes.map fun bx => insideBox (locs.getD j ⟨0, 0, 0⟩) bx) := by
  unfold targetsForImagePure
  rw [if_neg hne]
  have hjr : j < ranges.length := hlr ▸ hj
  have h1 : (locs.zip ranges).length = locs.length := by
    rw [List.length_zip, hlr, Nat.min_self]
  have h2 : ((locs.zip ranges).zip
      (locs.map fun p => im.boxes.map fun bx => insideBox p bx)).length = locs.length := by
    rw [List.length_zip, h1, List.length_map, Nat.min_self]
  rw [List.getD_eq_getElem _ _ (by rw [List.length_map, h2]; exact hj),
    List.getElem_map, List.getElem_zip, List.getElem_zip, List.getElem_map,
    List.getD_eq_getElem locs _ hj, List.getD_eq_getElem ranges _ hjr]

theorem bundle_label_background (cfg : Cfg) (nt : ℕ) (im : GtImage) (p : Loc3)
    (rg : ℚ × ℚ) (hbne : im.boxes ≠ [])
    (hq : ∀ bx ∈ im.boxes, qualifies p rg bx = false) :
    (bundleForLocation cfg nt im p rg
      (im.boxes.map fun bx => insideBox p bx)).label = cfg.numClasses := by
  have hmask : ∀ x ∈ maskedAreas p rg im.boxes, x = INF := by
    intro x hx
    obtain ⟨bx, hbx, hbe⟩ := List.mem_map.mp hx
    rw [hq bx hbx] at hbe
    simpa using hbe.symm
  have hne : maskedAreas p rg im.boxes ≠ [] := by
    simpa [maskedAreas] using hbne
  obtain ⟨i, m, heq, hi, hget, _, _⟩ := argminFirst_spec _ hne
  have hmI : m = INF := by
    rw [← hget]
    exact hmask _ (List.getElem_mem hi)
  unfold bundleForLocation
  rw [masked_eq]
  dsimp only
  rw [heq]
  simp [hmI]

/-- C1 (amended): for every image and every location, if no ground-truth box
qualifies for the location, the label of the bundle produced by
`compute_targets_for_locations` is the background sentinel `num_classes`; the
regression target is the zero vector and the assigned-instance index is `-1`
exactly in the empty-ground-truth case (`fcos_outputs3d.py:250-257`).  When
the image has ground truth, the bundle instead stores the regression target
and (offset) index of the box picked by the area argmin even though the label
marks background (`fcos_outputs3d.py:303-310`). -/
theorem C1_background_targets (cfg : Cfg) (locs : List Loc3)
    (ranges : List (ℚ × ℚ)) (nls : List ℕ) (images : List GtImage)
    (out : List (List TargetBundle))
    (hcs : cfg.centerSample = false)
    (hlr : ranges.length = locs.length)
    (hout : compute_targets_for_locations cfg locs ranges nls images =
      Except.ok out)
    (i j : ℕ) (hi : i < images.length) (hj : j < locs.length)
    (hq : ∀ bx ∈ (images.getD i ⟨[], [], none⟩).boxes,
      qualifies (locs.getD j ⟨0, 0, 0⟩) (ranges.getD j (0, 0)) bx = false) :
    ((out.getD i []).getD j ⟨0, Reg6.zero, 0⟩).label = cfg.numClasses ∧
    ((images.getD i ⟨[], [], none⟩).boxes = [] →
      (out.getD i []).getD j ⟨0, Reg6.zero, 0⟩ =
        ⟨cfg.numClasses, Reg6.zero, -1⟩) := by
  rw [compute_targets_for_locations, computeGo_noCS cfg locs ranges nls hcs images 0]
    at hout
  have hout' : out = pureGo cfg locs ranges 0 images := by
    cases hout
    rfl
  subst hout'
  rw [pureGo_getD cfg locs ranges images 0 i hi]
  by_cases hb : (images.getD i ⟨[], [], none⟩).boxes = []
  · have hb0 : (images.getD i ⟨[], [], none⟩).boxes.length = 0 := by
      rw [hb]
      rfl
    have hbun : (targetsForImagePure cfg locs ranges (0 + ntBefore images i)
        (images.getD i ⟨[], [], none⟩)).getD j ⟨0, Reg6.zero, 0⟩ =
        ⟨cfg.numClasses, Reg6.zero, -1⟩ := by
      unfold targetsForImagePure
      rw [if_pos hb0, List.getD_eq_getElem _ _ (by simpa using hj), List.getElem_map]
    exact ⟨by rw [hbun], fun _ => hbun⟩
  · have hb' : (images.getD i ⟨[], [], none⟩).boxes.length ≠ 0 := by
      simpa [List.length_eq_zero] using hb
    rw [targetsForImagePure_getD cfg locs ranges _ _ hlr j hj hb']
    exact ⟨bundle_label_background cfg _ _ _ _ hb hq, fun h => absurd h hb⟩

/-- C1 counterexample: one image with a single ground-truth box
`(0,0,0)-(1,1,1)` and a single location `(5,5,5)` outside it (size range
`[-1, INF]`, no center sampling, one class).  No box qualifies, yet the
produced bundle stores the regression target `(5,5,5,-4,-4,-4)` (the signed
distances to box 0, not the zero vector) and instance index `0` (not `-1`);
only the label is the background sentinel.  This refutes the claim that the
regression target is the zero vector and the index `-1` whenever no box
qualifies. -/
theorem C1_counterexample :
    (∀ bx ∈ [(⟨0, 0, 0, 1, 1, 1⟩ : Box3)],
      qualifies ⟨5, 5, 5⟩ (-1, INF) bx = false) ∧
    compute_targets_for_locations ⟨1, false, 1, [1]⟩ [⟨5, 5, 5⟩] [(-1, INF)]
        [1] [⟨[⟨0, 0, 0, 1, 1, 1⟩], [0], none⟩] =
      Except.ok [[⟨1, ⟨5, 5, 5, -4, -4, -4⟩, 0⟩]] ∧
    (⟨5, 5, 5, -4, -4, -4⟩ : Reg6) ≠ Reg6.zero ∧ (0 : ℤ) ≠ -1 := by
  refine ⟨?_, ?_, ?_, ?_⟩
  · norm_num [qualifies, insideBox, isCaredInLevel, regTarget, Reg6.min6, min_def]
  · rw [compute_targets_for_locations, computeGo_noCS _ _ _ _ rfl, Except.ok.injEq]
    simp only [pureGo, targetsForImagePure, List.length_cons, List.length_nil]
    norm_num [insideBox, regTarget, Reg6.min6, min_def]
    norm_num [bundleForLocation, argminFirst, regTarget, Reg6.zero,
      TargetBundle.mk.injEq, Reg6.mk.injEq]
  · norm_num [Reg6.zero, Reg6.mk.injEq]
  · norm_num

/-- Witness for `C1_background_targets` at a concrete input: a single image
with empty ground truth and one location. -/
theorem C1_background_targets_witness :
    ((([[(⟨1, Reg6.zero, -1⟩ : TargetBundle)]] : List (List TargetBundle)).getD 0 []).getD 0
      ⟨0, Reg6.zero, 0⟩).label = 1 ∧
    ((([(⟨[], [], none⟩ : GtImage)] : List GtImage).getD 0 ⟨[], [], none⟩).boxes = [] →
      (([[(⟨1, Reg6.zero, -1⟩ : TargetBundle)]] : List (List TargetBundle)).getD 0 []).getD 0
        ⟨0, Reg6.zero, 0⟩ = ⟨1, Reg6.zero, -1⟩) :=
  C1_background_targets ⟨1, false, 1, [1]⟩ [⟨5, 5, 5⟩] [(-1, INF)] [1]
    [⟨[], [], none⟩] [[⟨1, Reg6.zero, -1⟩]] rfl rfl rfl 0 0
    (by decide) (by decide) (by simp)

theorem maskedAreas_getElem (p : Loc3) (rg : ℚ × ℚ) (boxes : List Box3)
    (k : ℕ) (hk : k < (maskedAreas p rg boxes).length) :
    (maskedAreas p rg boxes)[k] =
      if qualifies p rg (boxes.getD k ⟨0, 0, 0, 0, 0, 0⟩) then
        (boxes.getD k ⟨0, 0, 0, 0, 0, 0⟩).area
      else INF := by
  have hk' : k < boxes.length := by
    simpa [maskedAreas_length] using hk
  rw [List.getD_eq_getElem _ _ hk']
  simp [maskedAreas]

theorem bundle_selects_min_area (cfg : Cfg) (nt : ℕ) (im : GtImage) (p : Loc3)
    (rg : ℚ × ℚ) (k : ℕ) (hk : k < im.boxes.length)
    (hkq : qualifies p rg (im.boxes.getD k ⟨0, 0, 0, 0, 0, 0⟩) = true)
    (hka : (im.boxes.getD k ⟨0, 0, 0, 0, 0, 0⟩).area < INF) :
    ∃ s, ∃ hs : s < im.boxes.length,
      qualifies p rg (im.boxes.getD s ⟨0, 0, 0, 0, 0, 0⟩) = true ∧
      (∀ j2 (hj2 : j2 < im.boxes.length),
        qualifies p rg (im.boxes.getD j2 ⟨0, 0, 0, 0, 0, 0⟩) = true →
        (im.boxes.getD s ⟨0, 0, 0, 0, 0, 0⟩).area ≤
          (im.boxes.getD j2 ⟨0, 0, 0, 0, 0, 0⟩).area) ∧
      (∀ j2 (hj2 : j2 < im.boxes.length),
        qualifies p rg (im.boxes.getD j2 ⟨0, 0, 0, 0, 0, 0⟩) = true →
        (im.boxes.getD j2 ⟨0, 0, 0, 0, 0, 0⟩).area =
          (im.boxes.getD s ⟨0, 0, 0, 0, 0, 0⟩).area → s ≤ j2) ∧
      bundleForLocation cfg nt im p rg (im.boxes.map fun bx => insideBox p bx) =
        ⟨im.classes.getD s 0, regTarget p (im.boxes.getD s ⟨0, 0, 0, 0, 0, 0⟩),
         (s : ℤ) + nt⟩ := by
  have hbne : im.boxes ≠ [] := by
    intro h
    rw [h] at hk
    simp at hk
  have hne : maskedAreas p rg im.boxes ≠ [] := by
    simpa [maskedAreas] using hbne
  obtain ⟨s, m, heq, hs, hget, hmin, hfirst⟩ := argminFirst_spec _ hne
  have hlen : (maskedAreas p rg im.boxes).length = im.boxes.length :=
    maskedAreas_length p rg im.boxes
  have hs' : s < im.boxes.length := hlen ▸ hs
  have hk0 : k < (maskedAreas p rg im.boxes).length := by omega
  have hmk : (maskedAreas p rg im.boxes)[k] =
      (im.boxes.getD k ⟨0, 0, 0, 0, 0, 0⟩).area := by
    rw [maskedAreas_getElem _ _ _ _ hk0, if_pos hkq]
  have hmlt : m < INF := by
    have h1 := hmin k hk0
    rw [hmk] at h1
    exact lt_of_le_of_lt h1 hka
  have hms := maskedAreas_getElem p rg im.boxes s hs
  by_cases hq : qualifies p rg (im.boxes.getD s ⟨0, 0, 0, 0, 0, 0⟩) = true
  · have hmeq : m = (im.boxes.getD s ⟨0, 0, 0, 0, 0, 0⟩).area := by
      rw [← hget, hms, if_pos hq]
    refine ⟨s, hs', hq, ?_, ?_, ?_⟩
    · intro j2 hj2 hq2
      have hb2 : j2 < (maskedAreas p rg im.boxes).length := by omega
      have h2 := hmin j2 hb2
      rw [maskedAreas_getElem _ _ _ _ hb2, if_pos hq2] at h2
      exact hmeq ▸ h2
    · intro j2 hj2 hq2 hae
      have hb2 : j2 < (maskedAreas p rg im.boxes).length := by omega
      apply hfirst j2 hb2
      rw [maskedAreas_getElem _ _ _ _ hb2, if_pos hq2, hae, ← hmeq]
    · unfold bundleForLocation
      rw [masked_eq]
      dsimp only
      rw [heq]
      simp [ne_of_lt hmlt]
  · exfalso
    have hmI : m = INF := by
      rw [← hget, hms, if_neg hq]
    exact absurd (hmI ▸ hmlt) (lt_irrefl INF)

/-- C2 (amended): for every location for which at least one ground-truth box
is both a candidate and size-eligible AND has area strictly below the `INF`
sentinel `10^8`, `compute_targets_for_locations` assigns the qualifying box of
minimum area, breaking ties by the lowest index in iteration order
(`torch.min` returns the first minimal index, `fcos_outputs3d.py:299-310`):
the bundle stores that box's class label, its regression target, and its
(`num_targets`-offset) instance index.  The area-below-sentinel proviso is
forced by `C2_counterexample`: a qualifying box of area exactly `10^8`
collides with the `INF` masking value and is labeled background. -/
theorem C2_min_area_selection (cfg : Cfg) (locs : List Loc3)
    (ranges : List (ℚ × ℚ)) (nls : List ℕ) (images : List GtImage)
    (out : List (List TargetBundle))
    (hcs : cfg.centerSample = false)
    (hlr : ranges.length = locs.length)
    (hout : compute_targets_for_locations cfg locs ranges nls images =
      Except.ok out)
    (i j k : ℕ) (hi : i < images.length) (hj : j < locs.length)
    (hk : k < (images.getD i ⟨[], [], none⟩).boxes.length)
    (hkq : qualifies (locs.getD j ⟨0, 0, 0⟩) (ranges.getD j (0, 0))
      ((images.getD i ⟨[], [], none⟩).boxes.getD k ⟨0, 0, 0, 0, 0, 0⟩) = true)
    (hka : ((images.getD i ⟨[], [], none⟩).boxes.getD k
      ⟨0, 0, 0, 0, 0, 0⟩).area < INF) :
    ∃ s, ∃ hs : s < (images.getD i ⟨[], [], none⟩).boxes.length,
      qualifies (locs.getD j ⟨0, 0, 0⟩) (ranges.getD j (0, 0))
        ((images.getD i ⟨[], [], none⟩).boxes.getD s ⟨0, 0, 0, 0, 0, 0⟩) = true ∧
      (∀ j2 (hj2 : j2 < (images.getD i ⟨[], [], none⟩).boxes.length),
        qualifies (locs.getD j ⟨0, 0, 0⟩) (ranges.getD j (0, 0))
          ((images.getD i ⟨[], [], none⟩).boxes.getD j2 ⟨0, 0, 0, 0, 0, 0⟩) = true →
        (((images.getD i ⟨[], [], none⟩).boxes.getD s ⟨0, 0, 0, 0, 0, 0⟩).area ≤
          ((images.getD i ⟨[], [], none⟩).boxes.getD j2 ⟨0, 0, 0, 0, 0, 0⟩).area)) ∧
      (∀ j2 (hj2 : j2 < (images.getD i ⟨[], [], none⟩).boxes.length),
        qualifies (locs.getD j ⟨0, 0, 0⟩) (ranges.getD j (0, 0))
          ((images.getD i ⟨[], [], none⟩).boxes.getD j2 ⟨0, 0, 0, 0, 0, 0⟩) = true →
        ((images.getD i ⟨[], [], none⟩).boxes.getD j2 ⟨0, 0, 0, 0, 0, 0⟩).area =
          ((images.getD i ⟨[], [], none⟩).boxes.getD s ⟨0, 0, 0, 0, 0, 0⟩).area →
        s ≤ j2) ∧
      (out.getD i []).getD j ⟨0, Reg6.zero, 0⟩ =
        ⟨(images.getD i ⟨[], [], none⟩).classes.getD s 0,
         regTarget (locs.getD j ⟨0, 0, 0⟩)
           ((images.getD i ⟨[], [], none⟩).boxes.getD s ⟨0, 0, 0, 0, 0, 0⟩),
         (s : ℤ) + ntBefore images i⟩ := by
  rw [compute_targets_for_locations,
    computeGo_noCS cfg locs ranges nls hcs images 0] at hout
  have hout' : out = pureGo cfg locs ranges 0 images := by
    cases hout
    rfl
  subst hout'
  rw [pureGo_getD cfg locs ranges images 0 i hi]
  have hb' : (images.getD i ⟨[], [], none⟩).boxes.length ≠ 0 := by omega
  rw [targetsForImagePure_getD cfg locs ranges _ _ hlr j hj hb']
  obtain ⟨s, hs, hq, hminim, hties, hbun⟩ :=
    bundle_selects_min_area cfg (0 + ntBefore images i)
      (images.getD i ⟨[], [], none⟩) (locs.getD j ⟨0, 0, 0⟩)
      (ranges.getD j (0, 0)) k hk hkq hka
  refine ⟨s, hs, hq, hminim, hties, ?_⟩
  rw [hbun]
  norm_num

/-- Witness for `C2_min_area_selection` at the spec scenario: two overlapping
boxes containing the location `(1,1,1)`, of areas `10*5*2 = 100` and
`10*10*2 = 200`; the area-100 box (index 0) is assigned. -/
theorem C2_min_area_selection_witness :
    ∃ s, ∃ hs : s < ([⟨0, 0, 0, 10, 5, 2⟩, ⟨0, 0, 0, 10, 10, 2⟩] : List Box3).length,
      qualifies ⟨1, 1, 1⟩ (-1, INF)
        (([⟨0, 0, 0, 10, 5, 2⟩, ⟨0, 0, 0, 10, 10, 2⟩] : List Box3).getD s
          ⟨0, 0, 0, 0, 0, 0⟩) = true ∧
      (∀ j2 (hj2 : j2 <
          ([⟨0, 0, 0, 10, 5, 2⟩, ⟨0, 0, 0, 10, 10, 2⟩] : List Box3).length),
        qualifies ⟨1, 1, 1⟩ (-1, INF)
          (([⟨0, 0, 0, 10, 5, 2⟩, ⟨0, 0, 0, 10, 10, 2⟩] : List Box3).getD j2
            ⟨0, 0, 0, 0, 0, 0⟩) = true →
        ((([⟨0, 0, 0, 10, 5, 2⟩, ⟨0, 0, 0, 10, 10, 2⟩] : List Box3).getD s
            ⟨0, 0, 0, 0, 0, 0⟩).area ≤
          (([⟨0, 0, 0, 10, 5, 2⟩, ⟨0, 0, 0, 10, 10, 2⟩] : List Box3).getD j2
            ⟨0, 0, 0, 0, 0, 0⟩).area)) ∧
      (∀ j2 (hj2 : j2 <
          ([⟨0, 0, 0, 10, 5, 2⟩, ⟨0, 0, 0, 10, 10, 2⟩] : List Box3).length),
        qualifies ⟨1, 1, 1⟩ (-1, INF)
          (([⟨0, 0, 0, 10, 5, 2⟩, ⟨0, 0, 0, 10, 10, 2⟩] : List Box3).getD j2
            ⟨0, 0, 0, 0, 0, 0⟩) = true →
        (([⟨0, 0, 0, 10, 5, 2⟩, ⟨0, 0, 0, 10, 10, 2⟩] : List Box3).getD j2
            ⟨0, 0, 0, 0, 0, 0⟩).area =
          (([⟨0, 0, 0, 10, 5, 2⟩, ⟨0, 0, 0, 10, 10, 2⟩] : List Box3).getD s
            ⟨0, 0, 0, 0, 0, 0⟩).area → s ≤ j2) ∧
      (([[(⟨0, ⟨1, 1, 1, 9, 4, 1⟩, 0⟩ : TargetBundle)]] :
          List (List TargetBundle)).getD 0 []).getD 0 ⟨0, Reg6.zero, 0⟩ =
        ⟨([0, 0] : List ℕ).getD s 0,
         regTarget ⟨1, 1, 1⟩
           (([⟨0, 0, 0, 10, 5, 2⟩, ⟨0, 0, 0, 10, 10, 2⟩] : List Box3).getD s
             ⟨0, 0, 0, 0, 0, 0⟩),
         (s : ℤ) + ntBefore
           [⟨[⟨0, 0, 0, 10, 5, 2⟩, ⟨0, 0, 0, 10, 10, 2⟩], [0, 0], none⟩] 0⟩ :=
  C2_min_area_selection ⟨1, false, 1, [1]⟩ [⟨1, 1, 1⟩] [(-1, INF)] [1]
    [⟨[⟨0, 0, 0, 10, 5, 2⟩, ⟨0, 0, 0, 10, 10, 2⟩], [0, 0], none⟩]
    [[⟨0, ⟨1, 1, 1, 9, 4, 1⟩, 0⟩]] rfl rfl
    (by
      rw [compute_targets_for_locations, computeGo_noCS _ _ _ _ rfl,
        Except.ok.injEq]
      simp only [pureGo, targetsForImagePure, List.length_cons, List.length_nil]
      norm_num [insideBox, regTarget, Reg6.min6, min_def]
      norm_num [bundleForLocation, argminFirst, isCaredInLevel, regTarget,
        Reg6.max6, max_def, min_def, Box3.area, INF, Reg6.zero,
        TargetBundle.mk.injEq, Reg6.mk.injEq])
    0 0 0 (by decide) (by decide) (by decide)
    (by
      norm_num [qualifies, insideBox, isCaredInLevel, regTarget, Reg6.min6,
        Reg6.max6, min_def, max_def, INF])
    (by norm_num [Box3.area, INF])

/-- C2 counterexample against the claim as stated: the single ground-truth
box `(0,0,0)-(1000,1000,100)` has area exactly `10^8 = INF`; the location
`(50,50,50)` is strictly inside it and size-eligible for the range
`[-1, INF]`, so the box qualifies and is the (unique) minimum-area qualifying
box.  Yet the produced label is the background sentinel `1 = num_classes`,
not the box's class `0`: the location is not assigned to the qualifying box,
because the qualifying box's area collides with the `INF` masking sentinel
(`fcos_outputs3d.py:293-310`). -/
theorem C2_counterexample :
    qualifies ⟨50, 50, 50⟩ (-1, INF) ⟨0, 0, 0, 1000, 1000, 100⟩ = true ∧
    compute_targets_for_locations ⟨1, false, 1, [1]⟩ [⟨50, 50, 50⟩]
        [(-1, INF)] [1] [⟨[⟨0, 0, 0, 1000, 1000, 100⟩], [0], none⟩] =
      Except.ok [[⟨1, ⟨50, 50, 50, 950, 950, 50⟩, 0⟩]] ∧
    (1 : ℕ) ≠ 0 := by
  refine ⟨?_, ?_, ?_⟩
  · norm_num [qualifies, insideBox, isCaredInLevel, regTarget, Reg6.min6,
      Reg6.max6, min_def, max_def, INF]
  · rw [compute_targets_for_locations, computeGo_noCS _ _ _ _ rfl, Except.ok.injEq]
    simp only [pureGo, targetsForImagePure, List.length_cons, List.length_nil]
    norm_num [insideBox, regTarget, Reg6.min6, min_def]
    norm_num [bundleForLocation, argminFirst, isCaredInLevel, regTarget,
      Reg6.max6, max_def, min_def, Box3.area, INF, Reg6.zero,
      TargetBundle.mk.injEq, Reg6.mk.injEq]
  · norm_num

/-- C6: when center sampling is enabled and the ground-truth instance has at
least one box but no `gt_bitmasks_full` field, `compute_targets_for_locations`
passes `bitmasks=None` to `get_sample_region`
(`fcos_outputs3d.py:269-283`), whose box-center fallback branch ends in a
bare `raise Exception()` (`fcos_outputs3d.py:184-187`): target assignment
raises instead of silently substituting the geometric box center. -/
theorem C6_missing_bitmask_raises (cfg : Cfg) (locs : List Loc3)
    (ranges : List (ℚ × ℚ)) (nls : List ℕ) (boxes : List Box3)
    (classes : List ℕ) (hcs : cfg.centerSample = true) (hne : boxes ≠ []) :
    compute_targets_for_locations cfg locs ranges nls
      [⟨boxes, classes, none⟩] = Except.error () := by
  have hb : ¬ ((⟨boxes, classes, none⟩ : GtImage).boxes.length = 0) := by
    simpa [List.length_eq_zero] using hne
  unfold compute_targets_for_locations computeGo targetsForImage
  rw [hcs, if_neg hb]
  rfl

/-- Witness for `C6_missing_bitmask_raises` at a concrete input: one box, one
location, center sampling on, no bitmask. -/
theorem C6_missing_bitmask_raises_witness :
    compute_targets_for_locations ⟨1, true, 1, [1]⟩ [⟨5, 5, 5⟩] [(-1, INF)]
      [1] [⟨[⟨0, 0, 0, 1, 1, 1⟩], [0], none⟩] = Except.error () :=
  C6_missing_bitmask_raises ⟨1, true, 1, [1]⟩ [⟨5, 5, 5⟩] [(-1, INF)] [1]
    [⟨0, 0, 0, 1, 1, 1⟩] [0] rfl (by simp)

/-- A 6-d regression vector `(l, t, n, r, b, f)` over `ℝ`, for the
real-valued score and centerness computations. -/
structure Reg6R where
  l : ℝ
  t : ℝ
  n : ℝ
  r : ℝ
  b : ℝ
  f : ℝ

/-- Modelled from the spec: `compute_ctrness_targets_3d` is imported from
`adet.modeling.backbone.unet3d` at `fcos_outputs3d.py:10` and applied to the
foreground regression targets at `fcos_outputs3d.py:470`, but that module is
not among the provided sources.  Spec: "Centerness target =
sqrt(min(l,r)/max(l,r) * min(t,b)/max(t,b) * min(n,f)/max(n,f))". -/
noncomputable def compute_ctrness_targets_3d (g : Reg6R) : ℝ :=
  Real.sqrt ((min g.l g.r / max g.l g.r) * (min g.t g.b / max g.t g.b) *
    (min g.n g.f / max g.n g.f))

theorem ratioMinMax_pos_le_one {a b : ℝ} (ha : 0 < a) (hb : 0 < b) :
    0 < min a b / max a b ∧ min a b / max a b ≤ 1 := by
  have hmax : 0 < max a b := lt_of_lt_of_le ha (le_max_left a b)
  exact ⟨div_pos (lt_min ha hb) hmax, div_le_one_of_le min_le_max hmax.le⟩

theorem ratioMinMax_eq_one_iff {a b : ℝ} (ha : 0 < a) (hb : 0 < b) :
    min a b / max a b = 1 ↔ a = b := by
  have hmax : 0 < max a b := lt_of_lt_of_le ha (le_max_left a b)
  rw [div_eq_one_iff_eq hmax.ne']
  constructor
  · intro h
    rcases le_total a b with hab | hba
    · rw [min_eq_left hab, max_eq_right hab] at h
      exact h
    · rw [min_eq_right hba, max_eq_left hba] at h
      exact h.symm
  · intro h
    rw [h]
    simp

theorem mul3_eq_one_iff {x y z : ℝ} (hx0 : 0 < x) (hx1 : x ≤ 1) (hy0 : 0 < y)
    (hy1 : y ≤ 1) (hz0 : 0 < z) (hz1 : z ≤ 1) :
    x * y * z = 1 ↔ x = 1 ∧ y = 1 ∧ z = 1 := by
  constructor
  · intro h
    rw [mul_assoc] at h
    have hyz1 : y * z ≤ 1 := mul_le_one hy1 hz0.le hz1
    have hx : x = 1 := by
      have hle : x * (y * z) ≤ x * 1 := mul_le_mul_of_nonneg_left hyz1 hx0.le
      rw [mul_one] at hle
      exact le_antisymm hx1 (by linarith)
    subst hx
    rw [one_mul] at h
    have hy : y = 1 := by
      have hle : y * z ≤ y * 1 := mul_le_mul_of_nonneg_left hz1 hy0.le
      rw [mul_one] at hle
      exact le_antisymm hy1 (by linarith)
    subst hy
    rw [one_mul] at h
    exact ⟨rfl, rfl, h⟩
  · rintro ⟨hx, hy, hz⟩
    rw [hx, hy, hz]
    norm_num

/-- C3: for a regression target with all six face distances positive, the
centerness target equals
`sqrt(min(l,r)/max(l,r) * min(t,b)/max(t,b) * min(n,f)/max(n,f))`, lies in
`[0, 1]`, and equals `1` exactly when the location is the box's geometric
center (`l = r`, `t = b`, `n = f`). -/
theorem C3_ctrness_target (g : Reg6R) (hl : 0 < g.l) (ht : 0 < g.t)
    (hn : 0 < g.n) (hr : 0 < g.r) (hb : 0 < g.b) (hf : 0 < g.f) :
    compute_ctrness_targets_3d g =
      Real.sqrt ((min g.l g.r / max g.l g.r) * (min g.t g.b / max g.t g.b) *
        (min g.n g.f / max g.n g.f)) ∧
    0 ≤ compute_ctrness_targets_3d g ∧
    compute_ctrness_targets_3d g ≤ 1 ∧
    (compute_ctrness_targets_3d g = 1 ↔
      (g.l = g.r ∧ g.t = g.b ∧ g.n = g.f)) := by
  obtain ⟨h1p, h1le⟩ := ratioMinMax_pos_le_one hl hr
  obtain ⟨h2p, h2le⟩ := ratioMinMax_pos_le_one ht hb
  obtain ⟨h3p, h3le⟩ := ratioMinMax_pos_le_one hn hf
  refine ⟨rfl, Real.sqrt_nonneg _, ?_, ?_⟩
  · exact Real.sqrt_le_one.mpr
      (mul_le_one (mul_le_one h1le h2p.le h2le) h3p.le h3le)
  · rw [compute_ctrness_targets_3d, Real.sqrt_eq_one,
      mul3_eq_one_iff h1p h1le h2p h2le h3p h3le,
      ratioMinMax_eq_one_iff hl hr, ratioMinMax_eq_one_iff ht hb,
      ratioMinMax_eq_one_iff hn hf]

/-- Witness for `C3_ctrness_target` at the regression target
`(1,1,1,1,1,1)` (a location at the exact center of a `2×2×2` box). -/
theorem C3_ctrness_target_witness :
    compute_ctrness_targets_3d ⟨1, 1, 1, 1, 1, 1⟩ =
      Real.sqrt ((min (1 : ℝ) 1 / max (1 : ℝ) 1) *
        (min (1 : ℝ) 1 / max (1 : ℝ) 1) * (min (1 : ℝ) 1 / max (1 : ℝ) 1)) ∧
    0 ≤ compute_ctrness_targets_3d ⟨1, 1, 1, 1, 1, 1⟩ ∧
    compute_ctrness_targets_3d ⟨1, 1, 1, 1, 1, 1⟩ ≤ 1 ∧
    (compute_ctrness_targets_3d ⟨1, 1, 1, 1, 1, 1⟩ = 1 ↔
      ((1 : ℝ) = 1 ∧ (1 : ℝ) = 1 ∧ (1 : ℝ) = 1)) :=
  C3_ctrness_target ⟨1, 1, 1, 1, 1, 1⟩ (by norm_num) (by norm_num)
    (by norm_num) (by norm_num) (by norm_num) (by norm_num)

/-- `sigmoid(x) = 1 / (1 + exp(-x))`, the elementwise `.sigmoid()` applied to
classification and quality logits at `fcos_outputs3d.py:583` and `587`. -/
noncomputable def sigmoid (x : ℝ) : ℝ := 1 / (1 + Real.exp (-x))

/-- One (location, class) slot of the per-level predictions entering
`forward_for_single_feature_map`: the classification logit of that class at
that location and the location's quality (centerness) logit. -/
structure PredSlot where
  clsLogit : ℝ
  ctrLogit : ℝ

/-- The score against which `candidate_inds` thresholds
(`fcos_outputs3d.py:592-596`): the sigmoided classification score, multiplied
by the sigmoided quality score beforehand exactly when `thresh_with_ctr` is
set. -/
noncomputable def preThreshScore (twc : Bool) (e : PredSlot) : ℝ :=
  if twc then sigmoid e.clsLogit * sigmoid e.ctrLogit else sigmoid e.clsLogit

/-- `candidate_inds = logits_pred > self.pre_nms_thresh`
(`fcos_outputs3d.py:596`): the slot survives the pre-NMS confidence
threshold. -/
def isCandidate (twc : Bool) (th : ℝ) (e : PredSlot) : Prop :=
  th < preThreshScore twc e

/-- `per_box_cls` at the point where the kept scores are assigned
(`fcos_outputs3d.py:600-601` and `644-646`): when `thresh_with_ctr` is unset,
the quality multiplication happens after thresholding; the returned score is
`torch.sqrt(per_box_cls)` (`fcos_outputs3d.py:646`). -/
noncomputable def perBoxCls (twc : Bool) (e : PredSlot) : ℝ :=
  if twc then preThreshScore twc e
  else preThreshScore twc e * sigmoid e.ctrLogit

/-- C4: the score returned for a kept proposal is
`sqrt(sigmoid(cls) * sigmoid(ctr))` in both branches of the
`thresh_with_ctr` toggle; the branches differ only in the pre-NMS threshold
predicate, which tests `sigmoid(cls) * sigmoid(ctr)` when the toggle is set
and the raw `sigmoid(cls)` otherwise. -/
theorem C4_score_toggle_invariant (twc : Bool) (th : ℝ) (e : PredSlot) :
    Real.sqrt (perBoxCls twc e) =
      Real.sqrt (sigmoid e.clsLogit * sigmoid e.ctrLogit) ∧
    (isCandidate true th e ↔ th < sigmoid e.clsLogit * sigmoid e.ctrLogit) ∧
    (isCandidate false th e ↔ th < sigmoid e.clsLogit) := by
  refine ⟨?_, Iff.rfl, Iff.rfl⟩
  cases twc <;> simp [perBoxCls, preThreshScore]

/-- `torch.kthvalue(scores, k)`: the `k`-th smallest element (1-based). -/
def kthvalue (scores : List ℚ) (k : ℕ) : ℚ :=
  (List.insertionSort (· ≤ ·) scores).getD (k - 1) 0

/-- The post-NMS top-k clip of `select_over_all_levels`
(`fcos_outputs3d.py:662-673`), acting on the per-image list of post-NMS
detection scores: when `number_of_detections > post_nms_topk > 0`, the
`(n - post_nms_topk + 1)`-th smallest score becomes `image_thresh` and the
detections with `score >= image_thresh` are kept in order; otherwise the
result is unchanged. -/
def select_topk_clip (postNmsTopk : ℤ) (scores : List ℚ) : List ℚ :=
  if (scores.length : ℤ) > postNmsTopk ∧ postNmsTopk > 0 then
    let thresh := kthvalue scores (scores.length - postNmsTopk.toNat + 1)
    scores.filter fun s => decide (thresh ≤ s)
  else scores

theorem sorted_le_getElem_of_mem_drop {l : List ℚ} (hs : l.Sorted (· ≤ ·))
    {m : ℕ} (hm : m < l.length) {y : ℚ} (hy : y ∈ l.drop m) : l[m] ≤ y := by
  obtain ⟨j, hj, rfl⟩ := List.mem_iff_getElem.mp hy
  rw [List.getElem_drop]
  have hmj : m ≤ m + j := Nat.le_add_right m j
  have hjlen : m + j < l.length := by
    rw [List.length_drop] at hj
    omega
  exact hs.rel_get_of_le (a := ⟨m, hm⟩) (b := ⟨m + j, hjlen⟩) hmj

theorem sorted_getElem_le_of_mem_take {l : List ℚ} (hs : l.Sorted (· ≤ ·))
    {m : ℕ} (hm : m < l.length) {y : ℚ} (hy : y ∈ l.take (m + 1)) :
    y ≤ l[m] := by
  obtain ⟨j, hj, rfl⟩ := List.mem_iff_getElem.mp hy
  rw [List.length_take] at hj
  have hjlen : j < l.length := by omega
  rw [List.getElem_take]
  have hjm : j ≤ m := by omega
  exact hs.rel_get_of_le (a := ⟨j, hjlen⟩) (b := ⟨m, hm⟩) hjm

/-- C5: for every per-image detection score list after NMS, if there are at
most `post_nms_topk` detections (or `post_nms_topk ≤ 0`) the list is returned
unchanged; otherwise the kept detections are exactly those with score at
least the `post_nms_topk`-th largest score (the
`(n - post_nms_topk + 1)`-th order statistic), so at least `post_nms_topk`
detections are kept, and ties at the threshold may push the output size above
`post_nms_topk`.  The final conjuncts characterise the threshold as the
`post_nms_topk`-th largest score: it occurs among the scores, fewer than
`post_nms_topk` scores exceed it strictly, and at least `post_nms_topk`
scores reach it. -/
theorem C5_post_nms_topk (postNmsTopk : ℤ) (scores : List ℚ) :
    (((scores.length : ℤ) ≤ postNmsTopk ∨ postNmsTopk ≤ 0) →
      select_topk_clip postNmsTopk scores = scores) ∧
    ((scores.length : ℤ) > postNmsTopk → postNmsTopk > 0 →
      (∀ s : ℚ, s ∈ select_topk_clip postNmsTopk scores ↔
        s ∈ scores ∧
          kthvalue scores (scores.length - postNmsTopk.toNat + 1) ≤ s) ∧
      postNmsTopk ≤ ((select_topk_clip postNmsTopk scores).length : ℤ) ∧
      kthvalue scores (scores.length - postNmsTopk.toNat + 1) ∈ scores ∧
      ((scores.filter fun s =>
        decide (kthvalue scores (scores.length - postNmsTopk.toNat + 1) < s)).length
          : ℤ) < postNmsTopk ∧
      postNmsTopk ≤ ((scores.filter fun s =>
        decide (kthvalue scores (scores.length - postNmsTopk.toNat + 1) ≤ s)).length
          : ℤ)) := by
  constructor
  · intro hc
    rw [select_topk_clip, if_neg]
    rintro ⟨hh1, hh2⟩
    rcases hc with hc | hc <;> omega
  · intro hgt hpos
    set kk := postNmsTopk.toNat with hkk
    have hkkz : (kk : ℤ) = postNmsTopk := Int.toNat_of_nonneg hpos.le
    set n := scores.length with hn
    have hkn : kk < n := by omega
    have hkk1 : 1 ≤ kk := by omega
    set sorted := List.insertionSort (· ≤ ·) scores with hsorteddef
    have hsort : sorted.Sorted (· ≤ ·) := List.sorted_insertionSort _ _
    have hperm : sorted.Perm scores := List.perm_insertionSort _ _
    have hlen : sorted.length = n := hperm.length_eq
    have hidx : n - kk < sorted.length := by omega
    have hthresh : kthvalue scores (n - kk + 1) = sorted[n - kk] := by
      rw [kthvalue, Nat.add_sub_cancel, List.getD_eq_getElem _ _ hidx]
    set thresh := kthvalue scores (n - kk + 1) with hthreshdef
    have hcond : (scores.length : ℤ) > postNmsTopk ∧ postNmsTopk > 0 :=
      ⟨hgt, hpos⟩
    have hsel : select_topk_clip postNmsTopk scores =
        scores.filter fun s => decide (thresh ≤ s) := by
      rw [select_topk_clip, if_pos hcond]
    -- at least kk scores reach the threshold
    have hcount_ge : kk ≤ (scores.filter fun s => decide (thresh ≤ s)).length := by
      have hfc : (scores.filter fun s => decide (thresh ≤ s)).length =
          (sorted.filter fun s => decide (thresh ≤ s)).length := by
        rw [← List.countP_eq_length_filter, ← List.countP_eq_length_filter]
        exact (hperm.countP_eq _).symm
      rw [hfc, ← List.countP_eq_length_filter]
      have hsplit := List.take_append_drop (n - kk) sorted
      have hdropall : ∀ y ∈ sorted.drop (n - kk), decide (thresh ≤ y) = true := by
        intro y hy
        simp only [decide_eq_true_eq]
        rw [hthresh]
        exact sorted_le_getElem_of_mem_drop hsort hidx hy
      have hdroplen : (sorted.drop (n - kk)).length = kk := by
        rw [List.length_drop]
        omega
      calc kk = (sorted.drop (n - kk)).length := hdroplen.symm
      _ = (sorted.drop (n - kk)).countP fun s => decide (thresh ≤ s) :=
        (List.countP_eq_length.mpr hdropall).symm
      _ ≤ (sorted.take (n - kk)).countP (fun s => decide (thresh ≤ s)) +
          (sorted.drop (n - kk)).countP fun s => decide (thresh ≤ s) :=
        Nat.le_add_left _ _
      _ = sorted.countP fun s => decide (thresh ≤ s) := by
        rw [← List.countP_append, hsplit]
    -- fewer than kk scores exceed the threshold strictly
    have hcount_lt : (scores.filter fun s => decide (thresh < s)).length < kk := by
      have hfc : (scores.filter fun s => decide (thresh < s)).length =
          (sorted.filter fun s => decide (thresh < s)).length := by
        rw [← List.countP_eq_length_filter, ← List.countP_eq_length_filter]
        exact (hperm.countP_eq _).symm
      rw [hfc, ← List.countP_eq_length_filter]
      have hsplit := List.take_append_drop (n - kk + 1) sorted
      have htake0 : (sorted.take (n - kk + 1)).countP
          (fun s => decide (thresh < s)) = 0 := by
        rw [List.countP_eq_zero]
        intro y hy
        simp only [decide_eq_true_eq, not_lt]
        rw [hthresh]
        exact sorted_getElem_le_of_mem_take hsort hidx hy
      have hdroplen : (sorted.drop (n - kk + 1)).length = kk - 1 := by
        rw [List.length_drop]
        omega
      calc sorted.countP (fun s => decide (thresh < s))
          = (sorted.take (n - kk + 1)).countP (fun s => decide (thresh < s)) +
            (sorted.drop (n - kk + 1)).countP fun s => decide (thresh < s) := by
            rw [← List.countP_append, hsplit]
      _ = (sorted.drop (n - kk + 1)).countP fun s => decide (thresh < s) := by
            rw [htake0, Nat.zero_add]
      _ ≤ (sorted.drop (n - kk + 1)).length := List.countP_le_length _
      _ = kk - 1 := hdroplen
      _ < kk := by omega
    refine ⟨?_, ?_, ?_, ?_, ?_⟩
    · intro s
      rw [hsel, List.mem_filter]
      simp
    · rw [hsel]
      omega
    · have : sorted[n - kk] ∈ sorted := List.getElem_mem hidx
      rw [hthresh]
      exact hperm.mem_iff.mp this
    · omega
    · omega

/-- Witness for `C5_post_nms_topk` with `post_nms_topk = 2` and post-NMS
scores `[3, 1, 2, 3]`: the threshold (2nd largest score) is `3` and both
score-3 detections are kept. -/
theorem C5_post_nms_topk_witness :
    (2 : ℤ) ≤ ((select_topk_clip 2 [3, 1, 2, 3]).length : ℤ) :=
  ((C5_post_nms_topk 2 [3, 1, 2, 3]).2 (by decide) (by decide)).2.1

/-- Right-padding of a 3D mask following the semantics of `torch.F.pad` with
a six-entry pad tuple: `F.pad` consumes the tuple from the LAST dimension
inward, so the first pair pads the `w` dimension, the second pair the `h`
dimension, and the third pair the `s` dimension.  `add_bitmasks` passes only
right pads (every left pad is `0`), so the arguments here are the right pad
of each dimension in tuple order `(wpad, hpad, spad)`. -/
def fpadRight (m : Mask3) (wpad hpad spad : ℕ) : Mask3 :=
  ⟨m.s + spad, m.h + hpad, m.w + wpad, fun i j k =>
    if i < m.s ∧ j < m.h ∧ k < m.w then m.val i j k else 0⟩

/-- Number of indices selected by the slice `x[start::stride]` from a
dimension of size `size`. -/
def sliceLen (size start stride : ℕ) : ℕ :=
  if start < size then (size - start - 1) / stride + 1 else 0

/-- `bitmasks_full[:, start::stride, start::stride, start::stride]`
(`uinst.py:429-434`), per instance mask. -/
def subsample3d (m : Mask3) (start stride : ℕ) : Mask3 :=
  ⟨sliceLen m.s start stride, sliceLen m.h start stride,
   sliceLen m.w start stride, fun i j k =>
    m.val (start + i * stride) (start + j * stride) (start + k * stride)⟩

/-- The `gt_bitmasks_full` tensor produced by `UInst3D.add_bitmasks`
(`uinst.py:408-436`) for one instance mask of shape `(s, h, w)`: the code
calls `F.pad(bitmasks, (0, im_s - s, 0, im_h - h, 0, im_w - w))`, and since
`F.pad` pads from the last dimension inward, the `w` dimension is padded by
`im_s - s`, the `h` dimension by `im_h - h`, and the `s` dimension by
`im_w - w`. -/
def add_bitmasks_full (im_s im_h im_w : ℕ) (m : Mask3) : Mask3 :=
  fpadRight m (im_s - m.s) (im_h - m.h) (im_w - m.w)

/-- The downsampled `gt_bitmasks` tensor of `UInst3D.add_bitmasks`
(`uinst.py:412, 429-434`): the padded mask subsampled with step
`mask_out_stride` starting at offset `int(mask_out_stride // 2)`. -/
def add_bitmasks_down (stride im_s im_h im_w : ℕ) (m : Mask3) : Mask3 :=
  subsample3d (add_bitmasks_full im_s im_h im_w m) (stride / 2) stride

/-- C8 failing-input evaluation: a ground-truth mask of spatial shape
`(s, h, w) = (2, 2, 4)` inside a padded batch of shape
`(im_s, im_h, im_w) = (4, 2, 4)` (so `s ≤ im_s`, `h ≤ im_h`, `w ≤ im_w`).
The claim requires `gt_bitmasks_full` to have shape `(4, 2, 4)`, but the
reversed `F.pad` tuple pads the width by `im_s - s = 2` and the depth by
`im_w - w = 0`, producing shape `(2, 2, 6)`. -/
theorem C8_pad_swapped_eval :
    (2 : ℕ) ≤ 4 ∧ (2 : ℕ) ≤ 2 ∧ (4 : ℕ) ≤ 4 ∧
    (add_bitmasks_full 4 2 4 ⟨2, 2, 4, fun _ _ _ => 1⟩).s = 2 ∧
    (add_bitmasks_full 4 2 4 ⟨2, 2, 4, fun _ _ _ => 1⟩).h = 2 ∧
    (add_bitmasks_full 4 2 4 ⟨2, 2, 4, fun _ _ _ => 1⟩).w = 6 ∧
    ¬((add_bitmasks_full 4 2 4 ⟨2, 2, 4, fun _ _ _ => 1⟩).s = 4 ∧
      (add_bitmasks_full 4 2 4 ⟨2, 2, 4, fun _ _ _ => 1⟩).w = 4) := by
  refine ⟨by decide, by decide, by decide, rfl, rfl, rfl, by decide⟩

/-- The `shape[:-2]` prefix compared by the assert in
`ImageList3D.from_tensors` (`uinst.py:145`). -/
def shapePrefix (t : List ℕ) : List ℕ := t.take (t.length - 2)

/-- `shape[-i]` of a dimension list (for `1 ≤ i ≤ length`). -/
def lastDim (t : List ℕ) (i : ℕ) : ℕ := t.getD (t.length - i) 0

/-- `ImageList3D.from_tensors` (`uinst.py:124-149`) at the shape level: each
tensor is its dimension list (e.g. `[C, S, H, W]`).  The asserts require a
nonempty input whose `shape[:-2]` prefixes all match the first tensor;
`image_sizes` collects the last three dims of each tensor; the body then
returns `ImageList(torch.stack(tensors, dim=0), image_sizes)` directly —
`torch.stack` requires ALL shapes to be equal, no padding is performed, and
`size_divisibility` and `pad_value` are never used. -/
def from_tensors (tensors : List (List ℕ)) (sizeDivisibility : ℕ)
    (padValue : ℚ) : Except Unit (List (List ℕ) × List (ℕ × ℕ × ℕ)) :=
  if tensors.length = 0 then Except.error ()
  else if tensors.any fun t =>
      decide (shapePrefix t ≠ shapePrefix (tensors.headD [])) then
    Except.error ()
  else
    let image_sizes := tensors.map fun t => (lastDim t 3, lastDim t 2, lastDim t 1)
    if tensors.any fun t => decide (t ≠ tensors.headD []) then
      Except.error ()
    else
      Except.ok (tensors, image_sizes)

/-- C9 failing-input evaluation: two volumes of shapes `(1, 2, 2, 2)` and
`(1, 2, 2, 3)` (equal `shape[:-2]` prefixes, different widths) pass both
asserts but `torch.stack` raises because the shapes differ —
`from_tensors` performs no padding, contradicting its own docstring ("The
Tensors will be padded to the same shape with pad_value").  And for a single
volume of shape `(1, 3, 3, 3)` with `size_divisibility = 2` the batch keeps
spatial shape `(3, 3, 3)`, which does not meet the divisibility
requirement. -/
theorem C9_from_tensors_eval :
    from_tensors [[1, 2, 2, 2], [1, 2, 2, 3]] 32 0 = Except.error () ∧
    from_tensors [[1, 3, 3, 3]] 2 0 =
      Except.ok ([[1, 3, 3, 3]], [(3, 3, 3)]) ∧
    ¬(3 % 2 = 0) :=
  ⟨rfl, rfl, by decide⟩

/-- Inference instances entering `UInst3D.postprocess` carrying `pred_boxes`
(set at `fcos_outputs3d.py:644-645`): the unpadded input image size
`(s, h, w)` recorded in `Instances.image_size` and the per-instance boxes and
scores. -/
structure PredInstances where
  imageSize : ℕ × ℕ × ℕ
  predBoxes : List Box3
  scores : List ℚ

/-- The inherited 2D `detectron2.structures.Boxes.scale` method.  `Boxes3D`
(`dataset_3d.py:34-67`) overrides only `__init__`, `to` and `area`, so
`pred_boxes.scale` dispatches to the 2D base class, whose signature is
`scale(self, scale_x, scale_y)` with body `tensor[:, 0::2] *= scale_x;
tensor[:, 1::2] *= scale_y`.  The argument list is modelled explicitly to
capture Python call arity: any argument count other than two is a
`TypeError`. -/
def Boxes_scale (bs : List Box3) (args : List ℚ) : Except Unit (List Box3) :=
  match args with
  | [sx, sy] => Except.ok (bs.map fun b =>
      ⟨b.x1 * sx, b.y1 * sy, b.z1 * sx, b.x2 * sy, b.y2 * sx, b.z2 * sy⟩)
  | _ => Except.error ()

/-- The inherited 2D `Boxes.clip(box_size)`: it unpacks `h, w = box_size` (a
`ValueError` unless `box_size` has exactly two entries) and rebuilds the
tensor from the first four columns clamped to `[0, w]`/`[0, h]`, dropping
columns 4 and 5 of the 6-column `Boxes3D` layout. -/
def Boxes_clip (bs : List Box3) (boxSize : List ℕ) :
    Except Unit (List (ℚ × ℚ × ℚ × ℚ)) :=
  match boxSize with
  | [h, w] => Except.ok (bs.map fun b =>
      (min (max b.x1 0) (w : ℚ), min (max b.y1 0) (h : ℚ),
       min (max b.z1 0) (w : ℚ), min (max b.x2 0) (h : ℚ)))
  | _ => Except.error ()

/-- The inherited 2D `Boxes.nonempty`: keeps rows with
`tensor[:,2] - tensor[:,0] > 0` and `tensor[:,3] - tensor[:,1] > 0`; on the
`(x1, y1, z1, x2, y2, z2)` layout these are `z1 - x1` and `x2 - y1` — the
`z` extent is never inspected. -/
def Boxes_nonempty (bs : List (ℚ × ℚ × ℚ × ℚ)) : List Bool :=
  bs.map fun b =>
    decide (0 < b.2.2.1 - b.1) && decide (0 < b.2.2.2 - b.2.1)

/-- `UInst3D.postprocess` (`uinst.py:488-532`), box path, for an instance set
carrying `pred_boxes`.  The scale factors (`uinst.py:514-518`) are
`scale_s = output_depth / image_size[0]`,
`scale_x = output_width / image_size[2]`,
`scale_y = output_height / image_size[1]`; the call at `uinst.py:529` is
`output_boxes.scale(scale_s, scale_y, scale_x)` — three positional arguments
— followed by `output_boxes.clip(results.image_size)` with the three-element
size (`uinst.py:530`) and the `nonempty` filter (`uinst.py:532`). -/
def postprocess (results : PredInstances)
    (outputDepth outputHeight outputWidth : ℕ) :
    Except Unit PredInstances := do
  let ss : ℚ := (outputDepth : ℚ) / (results.imageSize.1 : ℚ)
  let sx : ℚ := (outputWidth : ℚ) / (results.imageSize.2.2 : ℚ)
  let sy : ℚ := (outputHeight : ℚ) / (results.imageSize.2.1 : ℚ)
  let scaled ← Boxes_scale results.predBoxes [ss, sy, sx]
  let clipped ← Boxes_clip scaled [outputDepth, outputHeight, outputWidth]
  let keep := Boxes_nonempty clipped
  Except.ok ⟨(outputDepth, outputHeight, outputWidth),
    ((scaled.zip keep).filter fun q => q.2).map fun q => q.1,
    ((results.scores.zip keep).filter fun q => q.2).map fun q => q.1⟩

/-- C10: `postprocess` never returns a filtered instance set — for every
input carrying predicted boxes and every output size, the call
`output_boxes.scale(scale_s, scale_y, scale_x)` passes three scale factors
to the two-parameter inherited 2D `Boxes.scale` and raises `TypeError`, so
no instance with an empty clipped box is ever removed (and the inherited 2D
`clip` and `nonempty` would unpack a 2-tuple from a 3-element size and never
inspect the `z` extent in any case). -/
theorem C10_postprocess_raises (results : PredInstances)
    (outputDepth outputHeight outputWidth : ℕ) :
    postprocess results outputDepth outputHeight outputWidth =
      Except.error () := rfl

/-- C7: round trip. Decoding a box from `(location, regression)` as at
`fcos_outputs3d.py:632-642` and re-deriving the six face distances of that box
at the same location as at `fcos_outputs3d.py:261-267` reproduces the original
regression exactly (the arithmetic is exact over `ℚ`, hence within any
floating tolerance). -/
theorem round_trip_regression (p : Loc3) (g : Reg6) :
    regTarget p (decodeDetection p g) = g := by
  cases p
  cases g
  simp only [regTarget, decodeDetection, Reg6.mk.injEq]
  refine ⟨by ring, by ring, by ring, by ring, by ring, by ring⟩
